import Mathlib

/-!
Verification of the Kinetoscope streaming/decompression core against its
specification.  Shallow embedding of the C sources:

  * common/rle-common.h        (RLE decoder shared by firmware and emulator)
  * common/sram-common.h       (SRAM march self-test pattern generator)
  * emulator-patches/kinetoscope.c  (emulated SRAM writer, error latch,
                                     command processor, chunk-fetch pipeline)
  * firmware/http.cc           (HTTP range fetcher status policy)
  * firmware/error.cc          (firmware error reporting)
  * firmware/sram.cc           (firmware march test variant)

Machine integers: all values involved are small (bytes, 7-bit run lengths,
SRAM offsets below 2^21, HTTP status codes below 1000), far below any
fixed-width overflow boundary, so they are modelled as Nat; the RLE decoder's
two pending counters are C `int`s and are modelled as Int so that their
non-negativity is a provable invariant rather than a modelling artifact.
-/

namespace Kinetoscope

/-! ## RLE decoder (common/rle-common.h)

State of the decoder between input buffers.  `out` accumulates, in order, the
bytes handed to the SRAM_WRITE sink; the claims about the decoder talk about
exactly this byte sequence.  `pendingRepeats` and `pendingLiterals` embed the
file-level statics `_rle_pending_repeats` and `_rle_pending_literals`.
-/

structure RleState where
  pendingRepeats : Int
  pendingLiterals : Int
  out : List Nat
deriving DecidableEq, Repr

/-- The state at program start, and after any `rle_reset` from a fresh output:
both counters zero. -/
def rleInit : RleState := ⟨0, 0, []⟩

/-- rle_reset: zeroes both pending counters.  The output already written to
SRAM is of course untouched. -/
def rle_reset (st : RleState) : RleState :=
  { st with pendingRepeats := 0, pendingLiterals := 0 }

/-- _rle_output_literals: copy min(needed, bytes) literal bytes from the input
to the SRAM sink and return how many were copied. -/
def _rle_output_literals (st : RleState) (data : List Nat) (needed : Int) :
    RleState × Int :=
  let available := min needed (data.length : Int)
  ({ st with out := st.out ++ data.take available.toNat }, available)

/-- _rle_output_repeats: write `repeats` copies of `data_byte` to the sink
(the C for-loop runs zero times when `repeats` is not positive). -/
def _rle_output_repeats (st : RleState) (data_byte : Nat) (repeats : Int) :
    RleState :=
  { st with out := st.out ++ List.replicate repeats.toNat data_byte }

/-- The `while (bytes)` loop of rle_to_sram.  The loop consumes at least one
input byte per iteration, so it is driven by a fuel argument that callers set
to the length of the remaining input; `fuel = 0` with input left can then
never be reached. -/
def rle_loop : Nat → RleState → List Nat → RleState
  | _, st, [] => st
  | 0, st, _ :: _ => st
  | fuel + 1, st, control_byte :: rest =>
    let size : Nat := control_byte &&& 0x7f
    if control_byte &&& 0x80 ≠ 0 then
      match rest with
      | [] =>
        -- We don't have the byte to repeat; save the size for next time.
        { st with pendingRepeats := (size : Int) }
      | data_byte :: rest2 =>
        rle_loop fuel (_rle_output_repeats st data_byte (size : Int)) rest2
    else
      let pair := _rle_output_literals st rest (size : Int)
      rle_loop fuel { pair.1 with pendingLiterals := (size : Int) - pair.2 }
        (rest.drop pair.2.toNat)

/-- rle_to_sram: decode one input buffer, carrying pending state across
buffers exactly as the C does: a pending repeat consumes the first byte as
the repeat's data byte; otherwise pending literals are satisfied first; then
the main command loop runs on whatever remains. -/
def rle_to_sram (st : RleState) (buffer : List Nat) : RleState :=
  if buffer.isEmpty then st
  else if st.pendingRepeats ≠ 0 then
    match buffer with
    | [] => st
    | b :: rest =>
      let st2 := { _rle_output_repeats st b st.pendingRepeats with
                   pendingRepeats := 0 }
      rle_loop rest.length st2 rest
  else if st.pendingLiterals ≠ 0 then
    let pair := _rle_output_literals st buffer st.pendingLiterals
    let st2 := { pair.1 with pendingLiterals := pair.1.pendingLiterals - pair.2 }
    let rest := buffer.drop pair.2.toNat
    rle_loop rest.length st2 rest
  else
    rle_loop buffer.length st buffer

/-! A byte-at-a-time reference machine for the same wire grammar.  Feeding a
stream through `rle_step` one byte at a time is the maximally fragmented
decode; the fragmentation-equivalence proof shows the buffered decoder agrees
with it (for streams without zero-count repeat commands), from which
equivalence of any two bufferings follows. -/

def rle_step (st : RleState) (b : Nat) : RleState :=
  if st.pendingRepeats ≠ 0 then
    { st with out := st.out ++ List.replicate st.pendingRepeats.toNat b,
              pendingRepeats := 0 }
  else if st.pendingLiterals ≠ 0 then
    { st with out := st.out ++ [b], pendingLiterals := st.pendingLiterals - 1 }
  else if b &&& 0x80 ≠ 0 then
    { st with pendingRepeats := ((b &&& 0x7f : Nat) : Int) }
  else
    { st with pendingLiterals := ((b &&& 0x7f : Nat) : Int) }

/-- A stream is good from a given state when no control byte parsed along the
way is a repeat command with a zero count (byte 0x80, or any byte with the
high bit set and low seven bits clear).  The decoder's pending-repeat sentinel
cannot represent "a pending repeat of zero", which is exactly where buffered
and byte-at-a-time decoding diverge. -/
def goodRle : RleState → List Nat → Bool
  | _, [] => true
  | st, b :: rest =>
    if st.pendingRepeats = 0 ∧ st.pendingLiterals = 0 ∧
        b &&& 0x80 ≠ 0 ∧ b &&& 0x7f = 0 then
      false
    else
      goodRle (rle_step st b) rest

/-- Decoder state invariant: both pending counters non-negative and at most
one of them non-zero. -/
def RleInv (st : RleState) : Prop :=
  0 ≤ st.pendingRepeats ∧ 0 ≤ st.pendingLiterals ∧
    (st.pendingRepeats = 0 ∨ st.pendingLiterals = 0)

example : (rle_to_sram rleInit [0x82, 0xAB, 0x03, 0x10, 0x20, 0x30]).out =
    [0xAB, 0xAB, 0x10, 0x20, 0x30] := by decide

example : (rle_to_sram (rle_to_sram rleInit [0x82]) [0xAB, 0x03, 0x10, 0x20, 0x30]).out =
    [0xAB, 0xAB, 0x10, 0x20, 0x30] := by decide

example : (rle_to_sram rleInit [0x80, 0x82, 0xCC]).out = [] := by decide

example : (rle_to_sram (rle_to_sram rleInit [0x80]) [0x82, 0xCC]).out =
    [0xCC, 0xCC] := by decide

/-! ### Lemmas relating the buffered decoder to the byte machine -/

lemma rleInv_rle_step (st : RleState) (b : Nat) (h : RleInv st) :
    RleInv (rle_step st b) := by
  obtain ⟨r, l, o⟩ := st
  obtain ⟨h1, h2, h3⟩ := h
  simp only [RleInv] at *
  by_cases hr : r ≠ 0
  · simp [rle_step, hr]
    exact h2
  · by_cases hl : l ≠ 0
    · simp only [ne_eq, not_not] at hr
      simp [rle_step, hr, hl]
      omega
    · simp only [ne_eq, not_not] at hr hl
      by_cases hb : b &&& 0x80 ≠ 0
      · simp [rle_step, hr, hl, hb]
      · simp [rle_step, hr, hl, hb]

lemma rleInv_foldl_rle_step (buf : List Nat) (st : RleState) (h : RleInv st) :
    RleInv (List.foldl rle_step st buf) := by
  induction buf generalizing st with
  | nil => exact h
  | cons b rest ih => exact ih _ (rleInv_rle_step st b h)

lemma goodRle_nil (st : RleState) : goodRle st [] = true := rfl

lemma goodRle_cons (st : RleState) (b : Nat) (rest : List Nat) :
    goodRle st (b :: rest) =
      if st.pendingRepeats = 0 ∧ st.pendingLiterals = 0 ∧
          b &&& 0x80 ≠ 0 ∧ b &&& 0x7f = 0 then false
      else goodRle (rle_step st b) rest := rfl

lemma min_toNat_coe (a : Int) (n : Nat) (ha : 0 ≤ a) :
    (min a (n : Int)).toNat = min a.toNat n := by
  rcases le_total a (n : Int) with h | h
  · rw [min_eq_left h, min_eq_left (by omega)]
  · rw [min_eq_right h, min_eq_right (by omega)]
    omega

lemma coe_min_toNat (a : Int) (n : Nat) (ha : 0 ≤ a) :
    ((min a.toNat n : Nat) : Int) = min a (n : Int) := by
  rcases le_total a (n : Int) with h | h
  · rw [min_eq_left h, min_eq_left (by omega)]
    omega
  · rw [min_eq_right h, min_eq_right (by omega)]

/-- Feeding data into the byte machine while a literal run may be pending
consumes min(pending, available) bytes as literal output. -/
lemma foldl_step_literals :
    ∀ (data : List Nat) (st : RleState), st.pendingRepeats = 0 →
      0 ≤ st.pendingLiterals →
      List.foldl rle_step st data =
        List.foldl rle_step
          { st with
            out := st.out ++ data.take (min st.pendingLiterals.toNat data.length),
            pendingLiterals := st.pendingLiterals -
              (min st.pendingLiterals.toNat data.length : Nat) }
          (data.drop (min st.pendingLiterals.toNat data.length)) := by
  intro data
  induction data with
  | nil =>
    intro st hr hl
    obtain ⟨r, l, o⟩ := st
    simp
  | cons d rest ih =>
    intro st hr hl
    obtain ⟨r, l, o⟩ := st
    simp only at hr hl
    subst hr
    by_cases hl0 : l = 0
    · subst hl0
      have hmin : min (Int.toNat 0) (d :: rest).length = 0 := by simp
      simp [hmin]
    · have hlpos : 0 < l := by omega
      have hstep : rle_step ⟨0, l, o⟩ d = ⟨0, l - 1, o ++ [d]⟩ := by
        simp [rle_step]
        omega
      simp only [List.foldl_cons, hstep]
      rw [ih ⟨0, l - 1, o ++ [d]⟩ rfl (show (0 : Int) ≤ l - 1 from by omega)]
      simp only [List.length_cons]
      obtain ⟨hm1, hm2⟩ : min (l - 1).toNat rest.length =
          min l.toNat (rest.length + 1) - 1 ∧ 1 ≤ min l.toNat (rest.length + 1) := by
        rcases le_total l.toNat (rest.length + 1) with hc | hc
        · rw [min_eq_left hc, min_eq_left (show (l - 1).toNat ≤ rest.length by omega)]
          omega
        · rw [min_eq_right hc, min_eq_right (show rest.length ≤ (l - 1).toNat by omega)]
          omega
      rw [hm1]
      have htake : (o ++ [d]) ++ rest.take (min l.toNat (rest.length + 1) - 1) =
          o ++ (d :: rest).take (min l.toNat (rest.length + 1)) := by
        conv_rhs => rw [show min l.toNat (rest.length + 1) =
            (min l.toNat (rest.length + 1) - 1) + 1 from by omega]
        simp
      have hdrop : rest.drop (min l.toNat (rest.length + 1) - 1) =
          (d :: rest).drop (min l.toNat (rest.length + 1)) := by
        conv_rhs => rw [show min l.toNat (rest.length + 1) =
            (min l.toNat (rest.length + 1) - 1) + 1 from by omega]
        simp
      have hlit : l - 1 - ((min l.toNat (rest.length + 1) - 1 : Nat) : Int) =
          l - ((min l.toNat (rest.length + 1) : Nat) : Int) := by omega
      rw [htake, hdrop, hlit]

/-- Companion of `foldl_step_literals` for the goodness predicate. -/
lemma goodRle_literals :
    ∀ (data : List Nat) (st : RleState), st.pendingRepeats = 0 →
      0 ≤ st.pendingLiterals →
      goodRle st data =
        goodRle
          { st with
            out := st.out ++ data.take (min st.pendingLiterals.toNat data.length),
            pendingLiterals := st.pendingLiterals -
              (min st.pendingLiterals.toNat data.length : Nat) }
          (data.drop (min st.pendingLiterals.toNat data.length)) := by
  intro data
  induction data with
  | nil =>
    intro st hr hl
    obtain ⟨r, l, o⟩ := st
    simp
  | cons d rest ih =>
    intro st hr hl
    obtain ⟨r, l, o⟩ := st
    simp only at hr hl
    subst hr
    by_cases hl0 : l = 0
    · subst hl0
      have hmin : min (Int.toNat 0) (d :: rest).length = 0 := by simp
      simp [hmin]
    · have hlpos : 0 < l := by omega
      have hstep : rle_step ⟨0, l, o⟩ d = ⟨0, l - 1, o ++ [d]⟩ := by
        simp [rle_step]
        omega
      have hcond : goodRle ⟨0, l, o⟩ (d :: rest) = goodRle (rle_step ⟨0, l, o⟩ d) rest := by
        rw [goodRle_cons, if_neg]
        rintro ⟨-, h0, -, -⟩
        exact hl0 h0
      rw [hcond, hstep, ih ⟨0, l - 1, o ++ [d]⟩ rfl (show (0 : Int) ≤ l - 1 from by omega)]
      simp only [List.length_cons]
      obtain ⟨hm1, hm2⟩ : min (l - 1).toNat rest.length =
          min l.toNat (rest.length + 1) - 1 ∧ 1 ≤ min l.toNat (rest.length + 1) := by
        rcases le_total l.toNat (rest.length + 1) with hc | hc
        · rw [min_eq_left hc, min_eq_left (show (l - 1).toNat ≤ rest.length by omega)]
          omega
        · rw [min_eq_right hc, min_eq_right (show rest.length ≤ (l - 1).toNat by omega)]
          omega
      rw [hm1]
      have htake : (o ++ [d]) ++ rest.take (min l.toNat (rest.length + 1) - 1) =
          o ++ (d :: rest).take (min l.toNat (rest.length + 1)) := by
        conv_rhs => rw [show min l.toNat (rest.length + 1) =
            (min l.toNat (rest.length + 1) - 1) + 1 from by omega]
        simp
      have hdrop : rest.drop (min l.toNat (rest.length + 1) - 1) =
          (d :: rest).drop (min l.toNat (rest.length + 1)) := by
        conv_rhs => rw [show min l.toNat (rest.length + 1) =
            (min l.toNat (rest.length + 1) - 1) + 1 from by omega]
        simp
      have hlit : l - 1 - ((min l.toNat (rest.length + 1) - 1 : Nat) : Int) =
          l - ((min l.toNat (rest.length + 1) : Nat) : Int) := by omega
      rw [htake, hdrop, hlit]

lemma goodRle_append :
    ∀ (xs ys : List Nat) (st : RleState),
      goodRle st (xs ++ ys) =
        (goodRle st xs && goodRle (List.foldl rle_step st xs) ys) := by
  intro xs
  induction xs with
  | nil =>
    intro ys st
    simp [goodRle_nil]
  | cons x xs ih =>
    intro ys st
    rw [List.cons_append, goodRle_cons, goodRle_cons, List.foldl_cons]
    by_cases hcond : st.pendingRepeats = 0 ∧ st.pendingLiterals = 0 ∧
        x &&& 0x80 ≠ 0 ∧ x &&& 0x7f = 0
    · rw [if_pos hcond, if_pos hcond]
      simp
    · rw [if_neg hcond, if_neg hcond]
      exact ih ys (rle_step st x)

/-- The main command loop agrees with the byte machine whenever it starts with
no pending state and the input parses without a zero-count repeat command. -/
lemma rle_loop_eq_foldl :
    ∀ (fuel : Nat) (buf : List Nat) (st : RleState), buf.length ≤ fuel →
      st.pendingRepeats = 0 → st.pendingLiterals = 0 → goodRle st buf = true →
      rle_loop fuel st buf = List.foldl rle_step st buf := by
  intro fuel
  induction fuel with
  | zero =>
    intro buf st hlen hr hl hg
    cases buf with
    | nil => rfl
    | cons c rest => simp at hlen
  | succ fuel ih =>
    intro buf st hlen hr hl hg
    obtain ⟨r, l, o⟩ := st
    simp only at hr hl
    subst hr
    subst hl
    cases buf with
    | nil => rfl
    | cons c rest =>
      by_cases hc : c &&& 0x80 ≠ 0
      · cases rest with
        | nil =>
          simp only [rle_loop, if_pos hc]
          simp [rle_step, hc]
        | cons d rest2 =>
          have hsz : c &&& 0x7f ≠ 0 := by
            by_contra h0
            have hfalse : goodRle ⟨0, 0, o⟩ (c :: d :: rest2) = false := by
              rw [goodRle_cons, if_pos ⟨rfl, rfl, hc, h0⟩]
            rw [hfalse] at hg
            exact Bool.noConfusion hg
          have hstep1 : rle_step ⟨0, 0, o⟩ c = ⟨((c &&& 0x7f : Nat) : Int), 0, o⟩ := by
            simp [rle_step, hc]
          have hstep2 : rle_step ⟨((c &&& 0x7f : Nat) : Int), 0, o⟩ d =
              ⟨0, 0, o ++ List.replicate (c &&& 0x7f) d⟩ := by
            simp [rle_step]
            intro habs
            exact absurd (by exact_mod_cast habs) hsz
          have hg2 : goodRle ⟨((c &&& 0x7f : Nat) : Int), 0, o⟩ (d :: rest2) = true := by
            rw [← hstep1]
            rw [goodRle_cons, if_neg (fun h => hsz h.2.2.2)] at hg
            exact hg
          have hg3 : goodRle ⟨0, 0, o ++ List.replicate (c &&& 0x7f) d⟩ rest2 = true := by
            rw [← hstep2]
            rw [goodRle_cons, if_neg (fun h => hsz (by
              have h1 : ((c &&& 0x7f : Nat) : Int) = 0 := h.1
              exact_mod_cast h1))] at hg2
            exact hg2
          simp only [rle_loop, if_pos hc]
          have hout : _rle_output_repeats ⟨0, 0, o⟩ d ((c &&& 0x7f : Nat) : Int) =
              ⟨0, 0, o ++ List.replicate (c &&& 0x7f) d⟩ := by
            simp [_rle_output_repeats]
          rw [hout, ih rest2 _ (by simp at hlen ⊢; omega) rfl rfl hg3]
          simp only [List.foldl_cons, hstep1, hstep2]
      · have hstep1 : rle_step ⟨0, 0, o⟩ c = ⟨0, ((c &&& 0x7f : Nat) : Int), o⟩ := by
          simp [rle_step, hc]
        have hg2 : goodRle ⟨0, ((c &&& 0x7f : Nat) : Int), o⟩ rest = true := by
          rw [← hstep1]
          rw [goodRle_cons, if_neg (fun h => hc h.2.2.1)] at hg
          exact hg
        have hlen2 : rest.length ≤ fuel := by simp at hlen; omega
        set size := c &&& 0x7f with hsizedef
        have htn : ((size : Int)).toNat = size := by omega
        have hA : (min (size : Int) (rest.length : Int)).toNat = min size rest.length := by
          have h := min_toNat_coe (size : Int) rest.length (by omega)
          rw [htn] at h
          exact h
        have hAcast : ((min size rest.length : Nat) : Int) =
            min (size : Int) (rest.length : Int) := by
          have h := coe_min_toNat (size : Int) rest.length (by omega)
          rw [htn] at h
          exact h
        have hlit := foldl_step_literals rest ⟨0, (size : Int), o⟩ rfl
          (show (0 : Int) ≤ (size : Int) from by omega)
        have hgld := goodRle_literals rest ⟨0, (size : Int), o⟩ rfl
          (show (0 : Int) ≤ (size : Int) from by omega)
        simp only at hlit hgld
        rw [htn] at hlit hgld
        simp only [rle_loop, if_neg hc, _rle_output_literals]
        simp only [List.foldl_cons, hstep1, hlit]
        rw [hA, ← hAcast]
        by_cases hrem : (size : Int) - ((min size rest.length : Nat) : Int) = 0
        · have hg3 : goodRle ⟨0, (size : Int) - ((min size rest.length : Nat) : Int),
              o ++ rest.take (min size rest.length)⟩
              (rest.drop (min size rest.length)) = true := by
            rw [← hgld]
            exact hg2
          rw [ih (rest.drop (min size rest.length)) _
            (by rw [List.length_drop]; exact le_trans (Nat.sub_le _ _) hlen2)
            rfl hrem hg3]
        · have hlt : min size rest.length = rest.length := by
            rcases le_total size rest.length with h | h
            · rw [min_eq_left h] at hrem ⊢
              omega
            · rw [min_eq_right h]
          rw [hlt, List.drop_length, hsizedef]
          simp only [rle_loop, List.foldl_nil]

/-- Unfolding of rle_to_sram in its pending-literals branch. -/
lemma rle_to_sram_litpending (l : Int) (o : List Nat) (b : Nat) (rest : List Nat)
    (hl : l ≠ 0) :
    rle_to_sram ⟨0, l, o⟩ (b :: rest) =
      rle_loop ((b :: rest).drop (min l ((b :: rest).length : Int)).toNat).length
        ⟨0, l - min l ((b :: rest).length : Int),
          o ++ (b :: rest).take (min l ((b :: rest).length : Int)).toNat⟩
        ((b :: rest).drop (min l ((b :: rest).length : Int)).toNat) := by
  simp only [rle_to_sram, List.isEmpty_cons, Bool.false_eq_true, if_false, ne_eq,
    not_true, if_pos hl, _rle_output_literals, ite_false]

/-- Unfolding of rle_to_sram with no pending state. -/
lemma rle_to_sram_zero (o : List Nat) (buf : List Nat) :
    rle_to_sram ⟨0, 0, o⟩ buf = rle_loop buf.length ⟨0, 0, o⟩ buf := by
  cases buf with
  | nil => rfl
  | cons b rest =>
    simp only [rle_to_sram, List.isEmpty_cons, Bool.false_eq_true, if_false, ne_eq,
      not_true, ite_false]

/-- Unfolding of rle_to_sram in its pending-repeats branch. -/
lemma rle_to_sram_reppending (r l : Int) (o : List Nat) (b : Nat) (rest : List Nat)
    (hr : r ≠ 0) :
    rle_to_sram ⟨r, l, o⟩ (b :: rest) =
      rle_loop rest.length ⟨0, l, o ++ List.replicate r.toNat b⟩ rest := by
  simp only [rle_to_sram, List.isEmpty_cons, Bool.false_eq_true, if_false,
    if_pos hr, _rle_output_repeats]

/-- The buffered decoder agrees with the byte machine from any state
satisfying the decoder invariant, on any good input buffer. -/
lemma rle_to_sram_eq_foldl (buf : List Nat) (st : RleState) (hinv : RleInv st)
    (hg : goodRle st buf = true) :
    rle_to_sram st buf = List.foldl rle_step st buf := by
  obtain ⟨r, l, o⟩ := st
  obtain ⟨h1, h2, h3⟩ := hinv
  simp only at h1 h2 h3
  cases buf with
  | nil => rfl
  | cons b rest =>
    by_cases hr : r ≠ 0
    · have hl0 : l = 0 := by
        rcases h3 with h | h
        · exact absurd h hr
        · exact h
      subst hl0
      have hstep : rle_step ⟨r, 0, o⟩ b = ⟨0, 0, o ++ List.replicate r.toNat b⟩ := by
        simp [rle_step, hr]
      have hg2 : goodRle ⟨0, 0, o ++ List.replicate r.toNat b⟩ rest = true := by
        rw [← hstep]
        rw [goodRle_cons, if_neg (fun h => hr h.1)] at hg
        exact hg
      rw [rle_to_sram_reppending r 0 o b rest hr,
        rle_loop_eq_foldl rest.length rest _ (le_refl _) rfl rfl hg2]
      simp only [List.foldl_cons, hstep]
    · simp only [ne_eq, not_not] at hr
      subst hr
      by_cases hl : l ≠ 0
      · have hstep := foldl_step_literals (b :: rest) ⟨0, l, o⟩ rfl h2
        have hgld := goodRle_literals (b :: rest) ⟨0, l, o⟩ rfl h2
        simp only at hstep hgld
        have hA : (min l ((b :: rest).length : Int)).toNat =
            min l.toNat (b :: rest).length := min_toNat_coe l _ h2
        have hAcast : ((min l.toNat (b :: rest).length : Nat) : Int) =
            min l ((b :: rest).length : Int) := coe_min_toNat l _ h2
        rw [rle_to_sram_litpending l o b rest hl, hA, ← hAcast, hstep]
        by_cases hrem : l - ((min l.toNat (b :: rest).length : Nat) : Int) = 0
        · have hg3 : goodRle ⟨0, l - ((min l.toNat (b :: rest).length : Nat) : Int),
              o ++ (b :: rest).take (min l.toNat (b :: rest).length)⟩
              ((b :: rest).drop (min l.toNat (b :: rest).length)) = true := by
            rw [← hgld]
            exact hg
          exact rle_loop_eq_foldl _ _ _ (le_refl _) rfl hrem hg3
        · have hlt : min l.toNat (b :: rest).length = (b :: rest).length := by
            rcases le_total l.toNat (b :: rest).length with h | h
            · rw [min_eq_left h] at hrem ⊢
              omega
            · rw [min_eq_right h]
          rw [hlt, List.drop_length]
          simp only [rle_loop, List.foldl_nil]
      · simp only [ne_eq, not_not] at hl
        subst hl
        rw [rle_to_sram_zero]
        exact rle_loop_eq_foldl _ _ _ (le_refl _) rfl rfl hg

/-! ### Invariant preservation for the buffered decoder -/

lemma rle_loop_inv :
    ∀ (fuel : Nat) (buf : List Nat) (st : RleState), st.pendingRepeats = 0 →
      0 ≤ st.pendingLiterals → (buf ≠ [] → st.pendingLiterals = 0) →
      RleInv (rle_loop fuel st buf) := by
  intro fuel
  induction fuel with
  | zero =>
    intro buf st hr hl hb
    cases buf with
    | nil =>
      simp only [rle_loop]
      exact ⟨by omega, hl, Or.inl hr⟩
    | cons c rest =>
      simp only [rle_loop]
      exact ⟨by omega, hl, Or.inl hr⟩
  | succ fuel ih =>
    intro buf st hr hl hb
    obtain ⟨r, l, o⟩ := st
    simp only at hr hl hb
    subst hr
    cases buf with
    | nil => exact ⟨le_refl 0, hl, Or.inl rfl⟩
    | cons c rest =>
      have hl0 : l = 0 := hb (by simp)
      subst hl0
      by_cases hc : c &&& 0x80 ≠ 0
      · cases rest with
        | nil =>
          simp only [rle_loop, if_pos hc]
          exact ⟨Int.ofNat_nonneg _, le_refl 0, Or.inr rfl⟩
        | cons d rest2 =>
          simp only [rle_loop, if_pos hc]
          exact ih rest2 _ rfl (le_refl 0) (fun _ => rfl)
      · simp only [rle_loop, if_neg hc, _rle_output_literals]
        apply ih
        · rfl
        · exact sub_nonneg.mpr (min_le_left _ _)
        · intro hne
          rcases le_total ((c &&& 0x7f : Nat) : Int) (rest.length : Int) with h | h
          · rw [min_eq_left h]
            exact sub_self _
          · exfalso
            apply hne
            rw [min_eq_right h]
            have hln : (((rest.length : Nat)) : Int).toNat = rest.length := by omega
            rw [hln, List.drop_length]

lemma rleInv_rle_to_sram (st : RleState) (buf : List Nat) (h : RleInv st) :
    RleInv (rle_to_sram st buf) := by
  obtain ⟨r, l, o⟩ := st
  obtain ⟨h1, h2, h3⟩ := h
  simp only at h1 h2 h3
  cases buf with
  | nil => exact ⟨h1, h2, h3⟩
  | cons b rest =>
    by_cases hr : r ≠ 0
    · have hl0 : l = 0 := by
        rcases h3 with h | h
        · exact absurd h hr
        · exact h
      subst hl0
      rw [rle_to_sram_reppending r 0 o b rest hr]
      exact rle_loop_inv _ _ _ rfl (le_refl 0) (fun _ => rfl)
    · simp only [ne_eq, not_not] at hr
      subst hr
      by_cases hl : l ≠ 0
      · rw [rle_to_sram_litpending l o b rest hl]
        apply rle_loop_inv
        · rfl
        · exact sub_nonneg.mpr (min_le_left _ _)
        · intro hne
          rcases le_total l (((b :: rest).length : Nat) : Int) with hc | hc
          · rw [min_eq_left hc]
            exact sub_self l
          · exfalso
            apply hne
            rw [min_eq_right hc]
            have hln : ((((b :: rest).length : Nat)) : Int).toNat = (b :: rest).length := by
              omega
            rw [hln, List.drop_length]
      · simp only [ne_eq, not_not] at hl
        subst hl
        rw [rle_to_sram_zero]
        exact rle_loop_inv _ _ _ rfl (le_refl 0) (fun _ => rfl)

/-- A run of buffers decoded one after the other equals the byte machine run
on their concatenation, given the invariant and goodness. -/
lemma rle_buffered_run_eq_foldl :
    ∀ (ps : List (List Nat)) (st : RleState), RleInv st →
      goodRle st ps.flatten = true →
      ps.foldl rle_to_sram st = List.foldl rle_step st ps.flatten := by
  intro ps
  induction ps with
  | nil =>
    intro st _ _
    rfl
  | cons p rest ih =>
    intro st hinv hg
    rw [List.flatten_cons, goodRle_append] at hg
    simp only [Bool.and_eq_true] at hg
    obtain ⟨hgp, hgr⟩ := hg
    rw [List.foldl_cons, List.flatten_cons, List.foldl_append,
      ← rle_to_sram_eq_foldl p st hinv hgp]
    exact ih (rle_to_sram st p) (rleInv_rle_to_sram st p hinv)
      (by rw [rle_to_sram_eq_foldl p st hinv hgp]; exact hgr)

/-- C1 counterexample: the claim fails as stated.  For the compressed stream
[0x80, 0x82, 0xCC] (a repeat command with count zero, then more data), decoding
it whole consumes 0x82 as the data byte of the zero-count repeat and writes
nothing, while decoding it as the two consecutive non-empty buffers [0x80] and
[0x82, 0xCC] loses the pending zero-count repeat (the sentinel value 0 means
"no pending repeat") and then parses 0x82 as a fresh repeat command, writing
[0xCC, 0xCC] to SRAM. -/
theorem rle_fragmentation_counterexample :
    ¬ (([[0x80], [0x82, 0xCC]] : List (List Nat)).foldl rle_to_sram rleInit).out =
      (rle_to_sram rleInit ([[0x80], [0x82, 0xCC]] : List (List Nat)).flatten).out := by
  decide

/-- C1 (amended): for every compressed byte stream S in which no repeat
command has a zero count (no control byte with the high bit set and the low
seven bits clear at a command position), and every partition of S into
consecutive non-empty buffers, calling rle_reset and then rle_to_sram on each
buffer in order writes exactly the same byte sequence to SRAM (via SRAM_WRITE)
as calling rle_reset and then rle_to_sram once on all of S — including
partitions that split a (non-zero-count) repeat command between its control
byte and its data byte. -/
theorem rle_fragmentation_equiv (parts : List (List Nat))
    (_hne : ∀ p ∈ parts, p ≠ [])
    (hgood : goodRle rleInit parts.flatten = true) :
    (parts.foldl rle_to_sram rleInit).out =
      (rle_to_sram rleInit parts.flatten).out := by
  have hinv : RleInv rleInit := ⟨le_refl 0, le_refl 0, Or.inl rfl⟩
  rw [rle_buffered_run_eq_foldl parts rleInit hinv hgood,
    rle_to_sram_eq_foldl parts.flatten rleInit hinv hgood]

/-- Witness for rle_fragmentation_equiv: a concrete three-buffer partition of
a stream with a repeat command split across a buffer boundary. -/
theorem rle_fragmentation_equiv_witness :
    (∀ p ∈ ([[0x82], [0xAB, 0x03], [0x10, 0x20, 0x30]] : List (List Nat)), p ≠ []) ∧
    goodRle rleInit ([[0x82], [0xAB, 0x03], [0x10, 0x20, 0x30]] :
      List (List Nat)).flatten = true ∧
    (([[0x82], [0xAB, 0x03], [0x10, 0x20, 0x30]] : List (List Nat)).foldl
        rle_to_sram rleInit).out =
      (rle_to_sram rleInit ([[0x82], [0xAB, 0x03], [0x10, 0x20, 0x30]] :
        List (List Nat)).flatten).out :=
  ⟨by decide, by decide, rle_fragmentation_equiv _ (by decide) (by decide)⟩

/-! ### C9: decoder state invariant over arbitrary call sequences -/

/-- One call of the decoder API. -/
inductive RleCall where
  | reset : RleCall
  | toSram : List Nat → RleCall

/-- Apply one API call to the decoder state. -/
def rle_apply_call (st : RleState) : RleCall → RleState
  | RleCall.reset => rle_reset st
  | RleCall.toSram buf => rle_to_sram st buf

/-- The decoder state after an arbitrary sequence of rle_reset and
rle_to_sram calls (on arbitrary buffers), from program start. -/
def rle_run_calls (calls : List RleCall) : RleState :=
  calls.foldl rle_apply_call rleInit

lemma rleInv_run_calls (calls : List RleCall) (st : RleState) (h : RleInv st) :
    RleInv (calls.foldl rle_apply_call st) := by
  induction calls generalizing st with
  | nil => exact h
  | cons c rest ih =>
    cases c with
    | reset => exact ih _ ⟨le_refl 0, le_refl 0, Or.inl rfl⟩
    | toSram buf => exact ih _ (rleInv_rle_to_sram st buf h)

/-- C9: for every sequence of rle_reset and rle_to_sram calls on arbitrary
buffers, at every point between calls both _rle_pending_repeats and
_rle_pending_literals are non-negative and at most one of them is non-zero. -/
theorem rle_pending_invariant (calls : List RleCall) :
    0 ≤ (rle_run_calls calls).pendingRepeats ∧
      0 ≤ (rle_run_calls calls).pendingLiterals ∧
      ((rle_run_calls calls).pendingRepeats = 0 ∨
        (rle_run_calls calls).pendingLiterals = 0) :=
  rleInv_run_calls calls rleInit ⟨le_refl 0, le_refl 0, Or.inl rfl⟩

/-! ## SRAM writer (emulator-patches/kinetoscope.c)

The emulated SRAM is a 2 MiB byte buffer (two 1 MiB banks) with a single
write cursor.  Offsets and sizes are C uint32_t; every value reachable here
is at most 2^21 plus a buffer length (all call sites pass sizes below 16 KiB),
far from the 2^32 wrap, so plain Nat arithmetic is a faithful model.  The
buffer is modelled as a total function from physical offsets to bytes. -/

def SRAM_BANK_0_OFFSET : Nat := 0
def SRAM_BANK_1_OFFSET : Nat := 1 <<< 20
def SRAM_SIZE : Nat := 2 <<< 20

structure Sram where
  buffer : Nat → Nat
  offset : Nat

/-- reset_sram: point the write cursor at the base of the chosen bank. -/
def reset_sram (s : Sram) (bank : Nat) : Sram :=
  { s with offset := if bank ≠ 0 then SRAM_BANK_1_OFFSET else SRAM_BANK_0_OFFSET }

/-- One iteration of the write loop: store the byte at physical offset
(cursor XOR 1) and advance the cursor. -/
def sram_store (s : Sram) (b : Nat) : Sram :=
  { buffer := fun j => if j = s.offset ^^^ 1 then b else s.buffer j,
    offset := s.offset + 1 }

/-- write_sram: drop the whole write if it would overflow the 2 MiB buffer
(the cursor does not advance either); otherwise store every byte at
(cursor XOR 1) and advance the cursor once per byte. -/
def write_sram (s : Sram) (data : List Nat) : Sram :=
  if s.offset + data.length > SRAM_SIZE then s
  else data.foldl sram_store s

/-- Bank base offsets, as the claims state them. -/
def sram_base (bank : Nat) : Nat := if bank ≠ 0 then 1 <<< 20 else 0

lemma sram_foldl_store_offset (data : List Nat) (s : Sram) :
    (data.foldl sram_store s).offset = s.offset + data.length := by
  induction data generalizing s with
  | nil => simp
  | cons b rest ih =>
    simp only [List.foldl_cons, ih, sram_store, List.length_cons]
    omega

lemma xor_one_invol (a : Nat) : a ^^^ 1 ^^^ 1 = a := by
  rw [Nat.xor_assoc, Nat.xor_self, Nat.xor_zero]

lemma sram_foldl_store_untouched (data : List Nat) (s : Sram) (p : Nat)
    (hp : p ^^^ 1 < s.offset ∨ s.offset + data.length ≤ p ^^^ 1) :
    (data.foldl sram_store s).buffer p = s.buffer p := by
  induction data generalizing s with
  | nil => rfl
  | cons b rest ih =>
    simp only [List.foldl_cons]
    have hp2 : p ^^^ 1 < (sram_store s b).offset ∨
        (sram_store s b).offset + rest.length ≤ p ^^^ 1 := by
      simp only [sram_store, List.length_cons] at hp ⊢
      omega
    rw [ih (sram_store s b) hp2]
    have hne : p ≠ s.offset ^^^ 1 := by
      intro he
      have : p ^^^ 1 = s.offset := by rw [he, xor_one_invol]
      simp only [List.length_cons] at hp
      omega
    simp only [sram_store, if_neg hne]

lemma sram_foldl_store_get :
    ∀ (data : List Nat) (s : Sram) (i : Nat) (hi : i < data.length),
      (data.foldl sram_store s).buffer ((s.offset + i) ^^^ 1) =
        data.get ⟨i, hi⟩ := by
  intro data
  induction data with
  | nil =>
    intro s i hi
    simp at hi
  | cons b rest ih =>
    intro s i hi
    cases i with
    | zero =>
      simp only [List.foldl_cons, Nat.add_zero, List.get]
      rw [sram_foldl_store_untouched rest (sram_store s b) (s.offset ^^^ 1)
        (Or.inl (by simp only [sram_store, xor_one_invol]; omega))]
      simp [sram_store]
    | succ j =>
      simp only [List.foldl_cons, List.get]
      have harr : s.offset + (j + 1) = (sram_store s b).offset + j := by
        simp only [sram_store]
        omega
      rw [harr, ih (sram_store s b) j (by simp at hi; omega)]

/-- A write that fits: the cursor advances by the data length, each byte lands
at (cursor + i) XOR 1, and every other physical position is untouched. -/
lemma write_sram_fits (s : Sram) (data : List Nat)
    (h : s.offset + data.length ≤ SRAM_SIZE) :
    ((write_sram s data).offset = s.offset + data.length) ∧
    (∀ i, (hi : i < data.length) →
      (write_sram s data).buffer ((s.offset + i) ^^^ 1) = data[i]) ∧
    (∀ p, p ^^^ 1 < s.offset ∨ s.offset + data.length ≤ p ^^^ 1 →
      (write_sram s data).buffer p = s.buffer p) := by
  unfold write_sram
  rw [if_neg (by omega)]
  exact ⟨sram_foldl_store_offset data s,
    fun i hi => sram_foldl_store_get data s i hi,
    fun p hp => sram_foldl_store_untouched data s p hp⟩

/-- A run of writes whose total data fits. -/
lemma write_sram_run (ws : List (List Nat)) :
    ∀ (s : Sram), s.offset + ws.flatten.length ≤ SRAM_SIZE →
      ((ws.foldl write_sram s).offset = s.offset + ws.flatten.length) ∧
      (∀ i, (hi : i < ws.flatten.length) →
        (ws.foldl write_sram s).buffer ((s.offset + i) ^^^ 1) = ws.flatten[i]) ∧
      (∀ p, p ^^^ 1 < s.offset ∨ s.offset + ws.flatten.length ≤ p ^^^ 1 →
        (ws.foldl write_sram s).buffer p = s.buffer p) := by
  induction ws with
  | nil =>
    intro s h
    exact ⟨by simp, fun i hi => by simp at hi, fun p hp => rfl⟩
  | cons w rest ih =>
    intro s h
    have hlen : (w :: rest).flatten.length = w.length + rest.flatten.length := by
      simp [List.flatten_cons]
    have hw : s.offset + w.length ≤ SRAM_SIZE := by omega
    obtain ⟨ho1, hg1, hu1⟩ := write_sram_fits s w hw
    have h2 : (write_sram s w).offset + rest.flatten.length ≤ SRAM_SIZE := by
      rw [ho1]
      omega
    obtain ⟨ho2, hg2, hu2⟩ := ih (write_sram s w) h2
    refine ⟨?_, ?_, ?_⟩
    · simp only [List.foldl_cons]
      rw [ho2, ho1, hlen]
      omega
    · intro i hi
      simp only [List.foldl_cons]
      have hflat : (w :: rest).flatten = w ++ rest.flatten := by simp
      by_cases hiw : i < w.length
      · rw [hu2 ((s.offset + i) ^^^ 1) (Or.inl (by rw [xor_one_invol, ho1]; omega)),
          hg1 i hiw, List.getElem_of_eq hflat hi, List.getElem_append_left hiw]
      · have hj : i - w.length < rest.flatten.length := by omega
        have harr : s.offset + i = (write_sram s w).offset + (i - w.length) := by
          rw [ho1]
          omega
        rw [harr, hg2 (i - w.length) hj, List.getElem_of_eq hflat hi,
          List.getElem_append_right (by omega)]
    · intro p hp
      simp only [List.foldl_cons]
      rw [hu2 p (by rw [ho1]; omega), hu1 p (by omega)]

/-- C2: after reset_sram(b) followed by any sequence of write_sram calls whose
concatenated data D has length at most 2^20 (so no write overflows), the byte
stored at physical buffer offset (base(b) + i) XOR 1 equals D[i] for every
i < len(D), where base(0) = 0 and base(1) = 2^20, and the write cursor ends at
base(b) + len(D). -/
theorem sram_write_xor1 (b : Nat) (s0 : Sram) (ws : List (List Nat))
    (h : ws.flatten.length ≤ 1 <<< 20) :
    ((ws.foldl write_sram (reset_sram s0 b)).offset =
      sram_base b + ws.flatten.length) ∧
    (∀ i, (hi : i < ws.flatten.length) →
      (ws.foldl write_sram (reset_sram s0 b)).buffer ((sram_base b + i) ^^^ 1) =
        ws.flatten[i]) := by
  have hoff : (reset_sram s0 b).offset = sram_base b := by
    by_cases hb : b ≠ 0
    · simp [reset_sram, sram_base, hb, SRAM_BANK_1_OFFSET]
    · simp only [ne_eq, not_not] at hb
      simp [reset_sram, sram_base, hb, SRAM_BANK_0_OFFSET]
  have hbound : (reset_sram s0 b).offset + ws.flatten.length ≤ SRAM_SIZE := by
    rw [hoff]
    have : sram_base b ≤ 1 <<< 20 := by
      by_cases hb : b ≠ 0 <;> simp [sram_base, hb]
    have hsz : SRAM_SIZE = 2 <<< 20 := rfl
    omega
  obtain ⟨ho, hg, _⟩ := write_sram_run ws (reset_sram s0 b) hbound
  rw [hoff] at ho hg
  exact ⟨ho, hg⟩

/-- Witness for sram_write_xor1: bank 0, two single-byte writes. -/
theorem sram_write_xor1_witness :
    ((([[5], [7]] : List (List Nat)).foldl write_sram
        (reset_sram ⟨fun _ => 0, 0⟩ 0)).offset =
      sram_base 0 + ([[5], [7]] : List (List Nat)).flatten.length) ∧
    (∀ i, (hi : i < ([[5], [7]] : List (List Nat)).flatten.length) →
      (([[5], [7]] : List (List Nat)).foldl write_sram
          (reset_sram ⟨fun _ => 0, 0⟩ 0)).buffer ((sram_base 0 + i) ^^^ 1) =
        ([[5], [7]] : List (List Nat)).flatten[i]) :=
  sram_write_xor1 0 ⟨fun _ => 0, 0⟩ [[5], [7]] (by decide)

/-- C7: a write that would pass the end of SRAM is dropped atomically — the
state (buffer and cursor) is exactly unchanged — while a write that fits
stores every byte and advances the cursor by exactly the data length. -/
theorem sram_overflow_write_dropped (s : Sram) (data : List Nat) :
    (s.offset + data.length > SRAM_SIZE → write_sram s data = s) ∧
    (s.offset + data.length ≤ SRAM_SIZE →
      ((write_sram s data).offset = s.offset + data.length) ∧
      (∀ i, (hi : i < data.length) →
        (write_sram s data).buffer ((s.offset + i) ^^^ 1) = data[i])) := by
  constructor
  · intro hover
    unfold write_sram
    rw [if_pos hover]
  · intro hfit
    obtain ⟨ho, hg, _⟩ := write_sram_fits s data hfit
    exact ⟨ho, hg⟩

/-- Witness for sram_overflow_write_dropped: a one-byte write at a cursor at
the very end of SRAM is dropped; the same write at cursor 0 lands. -/
theorem sram_overflow_write_dropped_witness :
    (write_sram ⟨fun _ => 0, SRAM_SIZE⟩ [1] = ⟨fun _ => 0, SRAM_SIZE⟩) ∧
    ((write_sram ⟨fun _ => 0, 0⟩ [1]).offset = 0 + 1) :=
  ⟨(sram_overflow_write_dropped ⟨fun _ => 0, SRAM_SIZE⟩ [1]).1 (by decide),
    ((sram_overflow_write_dropped ⟨fun _ => 0, 0⟩ [1]).2 (by decide)).1⟩

/-! ## SRAM march self-test (common/sram-common.h; firmware/sram.cc variant)

The pattern generator is macro-parametric over the write sink: it emits
SRAM_MARCH_TEST_START(bank) and then one data byte per offset 0..2^20-1.  It
is embedded here as the pair (bank, list of emitted bytes). -/

def SRAM_BANK_SIZE_BYTES : Nat := 1 <<< 20

def SRAM_MARCH_TEST_NUM_PASSES : Nat := 22

def marchPrimes : List Nat := [251, 241, 239, 233, 229, 227, 223, 211]

/-- The loop of passes 20/21: per offset, first reset the counter (and advance
the prime index) if the counter reached primes[index]*255, then emit
counter mod primes[index], then increment the counter. -/
def prime_run : Nat → Nat → Nat → List Nat
  | 0, _, _ => []
  | n + 1, prime_index, counter =>
    let k := if counter = marchPrimes.getD prime_index 0 * 255
             then (prime_index + 1) % 8 else prime_index
    let c := if counter = marchPrimes.getD prime_index 0 * 255 then 0 else counter
    (c % marchPrimes.getD k 0) :: prime_run n k (c + 1)

/-- The byte sequence written by sram_march_test in common/sram-common.h for a
given pass (offsets 0..2^20-1 in order); the switch has no case above 21, so
such passes write nothing. -/
def sram_march_test_writes (pass : Nat) : List Nat :=
  if pass ≤ 15 then
    (List.range SRAM_BANK_SIZE_BYTES).map
      (fun offset => 1 <<< ((offset + pass / 2) % 8))
  else if pass ≤ 17 then
    (List.range SRAM_BANK_SIZE_BYTES).map (fun offset => offset &&& 0xff)
  else if pass ≤ 19 then
    (List.range SRAM_BANK_SIZE_BYTES).map (fun offset => (offset &&& 0xff) ^^^ 0xff)
  else if pass ≤ 21 then
    prime_run SRAM_BANK_SIZE_BYTES 0 ((pass &&& 1) * 199)
  else []

/-- sram_march_test (common/sram-common.h): select bank pass & 1, then emit
the pattern bytes. -/
def sram_march_test (pass : Nat) : Nat × List Nat :=
  (pass &&& 1, sram_march_test_writes pass)

/-- The separate implementation in firmware/sram.cc: its switch covers only
passes 0..19 — there are no cases 20 and 21 (and sram.h even declares this
function as returning bool while sram.cc defines it returning void). -/
def firmware_sram_march_test_writes (pass : Nat) : List Nat :=
  if pass ≤ 15 then
    (List.range SRAM_BANK_SIZE_BYTES).map
      (fun offset => 1 <<< ((offset + pass / 2) % 8))
  else if pass ≤ 17 then
    (List.range SRAM_BANK_SIZE_BYTES).map (fun offset => offset &&& 0xff)
  else if pass ≤ 19 then
    (List.range SRAM_BANK_SIZE_BYTES).map (fun offset => (offset &&& 0xff) ^^^ 0xff)
  else []

/-- One step of the prime-moduli rolling counter, as the claim describes it. -/
def prime_step (st : Nat × Nat) : Nat × Nat :=
  let k := if st.2 = marchPrimes.getD st.1 0 * 255 then (st.1 + 1) % 8 else st.1
  let c := if st.2 = marchPrimes.getD st.1 0 * 255 then 0 else st.2
  (k, c + 1)

/-- The byte emitted from a given (index, counter) state. -/
def prime_byte (st : Nat × Nat) : Nat :=
  let k := if st.2 = marchPrimes.getD st.1 0 * 255 then (st.1 + 1) % 8 else st.1
  let c := if st.2 = marchPrimes.getD st.1 0 * 255 then 0 else st.2
  c % marchPrimes.getD k 0

/-- The claimed prime-pattern byte at offset i for a bank (counter starts at
bank * 199). -/
def march_prime_value (bank i : Nat) : Nat :=
  prime_byte (prime_step^[i] (0, bank * 199))

lemma prime_run_length : ∀ (n k c : Nat), (prime_run n k c).length = n := by
  intro n
  induction n with
  | zero => intro k c; rfl
  | succ n ih =>
    intro k c
    simp only [prime_run, List.length_cons, ih]

lemma prime_run_getElem? :
    ∀ (n : Nat) (i k c : Nat), i < n →
      (prime_run n k c)[i]? = some (prime_byte (prime_step^[i] (k, c))) := by
  intro n
  induction n with
  | zero =>
    intro i k c hi
    omega
  | succ n ih =>
    intro i k c hi
    cases i with
    | zero =>
      simp only [prime_run, List.getElem?_cons_zero, Function.iterate_zero,
        id_eq, prime_byte]
    | succ j =>
      simp only [prime_run, List.getElem?_cons_succ]
      rw [ih j _ _ (by omega), Function.iterate_succ_apply]
      rfl

/-- C6 (evidence for the code_bug): the shared sram-common.h implementation
satisfies the claim in full — bank pass & 1, exactly 2^20 bytes, the walking
one-hot pattern for passes 0-15, the address byte for 16-17, its inverse for
18-19, the prime-moduli rolling counter for 20-21, and 22 passes in total —
while the firmware/sram.cc copy writes no bytes at all for the failing passes
20 and 21. -/
theorem march_test_patterns :
    (∀ pass, pass < 22 →
      (sram_march_test pass).1 = (pass &&& 1) ∧
      (sram_march_test pass).2.length = 1 <<< 20 ∧
      (∀ i, i < 1 <<< 20 →
        (sram_march_test pass).2[i]? =
          some (if pass ≤ 15 then 1 <<< ((i + pass / 2) % 8)
            else if pass ≤ 17 then i &&& 0xff
            else if pass ≤ 19 then (i &&& 0xff) ^^^ 0xff
            else march_prime_value (pass &&& 1) i))) ∧
    SRAM_MARCH_TEST_NUM_PASSES = 22 ∧
    firmware_sram_march_test_writes 20 = [] ∧
    firmware_sram_march_test_writes 21 = [] := by
  refine ⟨?_, rfl, rfl, rfl⟩
  intro pass hpass
  refine ⟨rfl, ?_, ?_⟩
  · by_cases h15 : pass ≤ 15
    · simp [sram_march_test, sram_march_test_writes, h15, SRAM_BANK_SIZE_BYTES]
    · by_cases h17 : pass ≤ 17
      · simp [sram_march_test, sram_march_test_writes, h15, h17, SRAM_BANK_SIZE_BYTES]
      · by_cases h19 : pass ≤ 19
        · simp [sram_march_test, sram_march_test_writes, h15, h17, h19,
            SRAM_BANK_SIZE_BYTES]
        · have h21 : pass ≤ 21 := by omega
          simp [sram_march_test, sram_march_test_writes, h15, h17, h19, h21,
            prime_run_length, SRAM_BANK_SIZE_BYTES]
  · intro i hi
    have hi2 : i < 1048576 := by simpa using hi
    by_cases h15 : pass ≤ 15
    · simp [sram_march_test, sram_march_test_writes, h15, List.getElem?_map,
        List.getElem?_range hi2, SRAM_BANK_SIZE_BYTES]
    · by_cases h17 : pass ≤ 17
      · simp [sram_march_test, sram_march_test_writes, h15, h17, List.getElem?_map,
          List.getElem?_range hi2, SRAM_BANK_SIZE_BYTES]
      · by_cases h19 : pass ≤ 19
        · simp [sram_march_test, sram_march_test_writes, h15, h17, h19,
            List.getElem?_map, List.getElem?_range hi2, SRAM_BANK_SIZE_BYTES]
        · have h21 : pass ≤ 21 := by omega
          simp only [sram_march_test, sram_march_test_writes, if_neg h15,
            if_neg h17, if_neg h19, if_pos h21, march_prime_value]
          exact prime_run_getElem? SRAM_BANK_SIZE_BYTES i 0 ((pass &&& 1) * 199)
            (by simpa [SRAM_BANK_SIZE_BYTES] using hi)

/-- Witness for march_test_patterns at pass 20. -/
theorem march_test_patterns_witness :
    ((sram_march_test 20).1 = (20 &&& 1) ∧
      (sram_march_test 20).2.length = 1 <<< 20 ∧
      (∀ i, i < 1 <<< 20 →
        (sram_march_test 20).2[i]? =
          some (if 20 ≤ 15 then 1 <<< ((i + 20 / 2) % 8)
            else if 20 ≤ 17 then i &&& 0xff
            else if 20 ≤ 19 then (i &&& 0xff) ^^^ 0xff
            else march_prime_value (20 &&& 1) i))) ∧
    SRAM_MARCH_TEST_NUM_PASSES = 22 :=
  ⟨march_test_patterns.1 20 (by decide), march_test_patterns.2.1⟩

/-! ## HTTP range fetcher (firmware/http.cc, firmware/error.cc)

The socket is abstracted as an environment: the parsed outcome of
read_response_headers (none for any header-read or header-parse failure) and
the successive socket reads available to the body loop.  Status codes reaching
check_status_code are 100..999 (read_response_headers rejects anything
smaller, and three parsed digits cannot exceed 999), so Nat is faithful. -/

/-- The bytes of an ASCII string literal (C strings seen as byte arrays,
terminator excluded). -/
def strBytes (s : String) : List Nat := s.toList.map Char.toNat

/-- Firmware error channel (firmware/error.cc): report_error always formats
the message into the 256-byte error_buffer (vsnprintf keeps at most 255
content bytes plus the terminator) and raises the error flag via
flag_error(). -/
structure FwError where
  error_buffer : List Nat
  flagged : Bool
deriving DecidableEq, Repr

def fw_report_error (_e : FwError) (msg : List Nat) : FwError :=
  { error_buffer := msg.take 255, flagged := true }

/-- check_status_code (firmware/http.cc lines 234-256). -/
def check_status_code (e : FwError) (status_code : Nat) : FwError × Bool :=
  if status_code = 200 then
    (fw_report_error e (strBytes ("Request failed! Range not supported?")), false)
  else if status_code / 100 = 3 then
    (fw_report_error e (strBytes ("Request failed! Redirect not supported!")), false)
  else if status_code ≠ 206 then
    (fw_report_error e
      (strBytes ("Request failed! HTTP status " ++ toString status_code)), false)
  else
    (e, true)

def MAX_READ : Nat := 8192

structure HeaderData where
  status_code : Nat
  body_length : Int
  body_start : List Nat

structure HttpEnv where
  header_result : Option HeaderData
  reads : List (List Nat)

structure HttpState where
  err : FwError
  connected : Bool
  delivered : List (List Nat)

inductive FetchOutcome where
  | ok : FetchOutcome
  | failed : FetchOutcome
  | starved : FetchOutcome

def outcome_to_result : FetchOutcome → Option Bool
  | FetchOutcome.ok => some true
  | FetchOutcome.failed => some false
  | FetchOutcome.starved => none

/-- The body-transfer loop of http_fetch: read up to min(bytes_left, MAX_READ)
bytes per socket read, forward each non-empty read to the sink callback, and
finish when the requested count is consumed.  A sink refusal closes the
connection and fails; a zero-byte read retries (delay(1) in the C).  If the
environment offers no more reads while bytes remain, the C loop would spin
forever; that is the starved outcome. -/
def http_body_loop (cb : List Nat → Bool) :
    List (List Nat) → Int → HttpState → HttpState × FetchOutcome
  | reads, bytes_left, st =>
    if bytes_left = 0 then (st, FetchOutcome.ok)
    else
      match reads with
      | [] => (st, FetchOutcome.starved)
      | r :: rest =>
        let request : Int :=
          if bytes_left > (MAX_READ : Int) then MAX_READ else bytes_left
        let chunk := r.take request.toNat
        if chunk.length = 0 then http_body_loop cb rest bytes_left st
        else if cb chunk then
          http_body_loop cb rest (bytes_left - chunk.length)
            { st with delivered := st.delivered ++ [chunk] }
        else
          ({ st with connected := false }, FetchOutcome.failed)

/-- http_fetch (firmware/http.cc lines 258-348), over the socket environment.
Returns the final state and the returned bool (none when the C would never
return because the socket starves). -/
def http_fetch (cb : List Nat → Bool) (has_client : Bool) (env : HttpEnv)
    (size : Int) (e : FwError) (connected : Bool) : HttpState × Option Bool :=
  if ¬ has_client then
    ({ err := fw_report_error e (strBytes ("No internet connection!")),
       connected := connected, delivered := [] }, some false)
  else
    match env.header_result with
    | none =>
      ({ err := fw_report_error e (strBytes ("Failed to read HTTP headers!")),
         connected := false, delivered := [] }, some false)
    | some hd =>
      let pair := check_status_code e hd.status_code
      if ¬ pair.2 then
        ({ err := pair.1, connected := false, delivered := [] }, some false)
      else if hd.body_length < 0 then
        ({ err := fw_report_error pair.1
             (strBytes ("Unexpected zero-length response!")),
           connected := false, delivered := [] }, some false)
      else
        let size2 := if hd.body_length < size then hd.body_length else size
        let st0 : HttpState := { err := pair.1, connected := true, delivered := [] }
        if hd.body_start.length ≠ 0 then
          if cb hd.body_start then
            let res := http_body_loop cb env.reads (size2 - hd.body_start.length)
              { st0 with delivered := [hd.body_start] }
            (res.1, outcome_to_result res.2)
          else
            ({ st0 with connected := false }, some false)
        else
          let res := http_body_loop cb env.reads size2 st0
          (res.1, outcome_to_result res.2)

lemma http_body_loop_conn (cb : List Nat → Bool) :
    ∀ (reads : List (List Nat)) (bytes_left : Int) (st : HttpState),
      (http_body_loop cb reads bytes_left st).2 = FetchOutcome.failed →
      (http_body_loop cb reads bytes_left st).1.connected = false := by
  intro reads
  induction reads with
  | nil =>
    intro bytes_left st h
    simp only [http_body_loop] at h
    by_cases h0 : bytes_left = 0
    · rw [if_pos h0] at h
      exact FetchOutcome.noConfusion h
    · rw [if_neg h0] at h
      exact FetchOutcome.noConfusion h
  | cons r rest ih =>
    intro bytes_left st h
    simp only [http_body_loop] at h ⊢
    by_cases h0 : bytes_left = 0
    · rw [if_pos h0] at h
      exact FetchOutcome.noConfusion h
    · rw [if_neg h0] at h ⊢
      by_cases hch : (r.take ((if bytes_left > (MAX_READ : Int) then
          (MAX_READ : Int) else bytes_left)).toNat).length = 0
      · rw [if_pos hch] at h ⊢
        exact ih _ _ h
      · rw [if_neg hch] at h ⊢
        by_cases hcb : cb (r.take ((if bytes_left > (MAX_READ : Int) then
            (MAX_READ : Int) else bytes_left)).toNat) = true
        · rw [if_pos hcb] at h ⊢
          exact ih _ _ h
        · rw [if_neg hcb] at h ⊢

/-- C5: status policy of the range fetcher — 206 is success; 200 to a ranged
request is a range-not-supported error; any 3xx is a redirect-not-supported
error; any other status is a numeric-status error — and whenever http_fetch
(invoked with a client present) returns false after a header-read, parse, or
status failure, it has closed the connection first (indeed every false return
leaves the connection closed). -/
theorem http_status_policy :
    (∀ e, check_status_code e 206 = (e, true)) ∧
    (∀ e, check_status_code e 200 =
      (fw_report_error e (strBytes ("Request failed! Range not supported?")),
        false)) ∧
    (∀ e status, 300 ≤ status → status ≤ 399 →
      check_status_code e status =
        (fw_report_error e (strBytes ("Request failed! Redirect not supported!")),
          false)) ∧
    (∀ e status, status ≠ 200 → status / 100 ≠ 3 → status ≠ 206 →
      check_status_code e status =
        (fw_report_error e
          (strBytes ("Request failed! HTTP status " ++ toString status)), false)) ∧
    (∀ cb env size e conn,
      (http_fetch cb true env size e conn).2 = some false →
      (http_fetch cb true env size e conn).1.connected = false) := by
  refine ⟨?_, ?_, ?_, ?_, ?_⟩
  · intro e
    simp [check_status_code]
  · intro e
    simp [check_status_code]
  · intro e status h1 h2
    have hne : status ≠ 200 := by omega
    have hdiv : status / 100 = 3 := by omega
    simp [check_status_code, hne, hdiv]
  · intro e status h1 h2 h3
    simp [check_status_code, h1, h2, h3]
  · intro cb env size e conn
    obtain ⟨hr, reads⟩ := env
    cases hr with
    | none =>
      intro h
      simp [http_fetch]
    | some hd =>
      simp only [http_fetch, Bool.not_true, not_true, if_false]
      by_cases hok : (check_status_code e hd.status_code).2 = true
      · rw [if_neg (show ¬ ¬ (check_status_code e hd.status_code).2 = true from
          not_not_intro hok)]
        by_cases hbl : hd.body_length < 0
        · rw [if_pos hbl]
          intro h
          rfl
        · rw [if_neg hbl]
          by_cases hbs : hd.body_start.length ≠ 0
          · rw [if_pos hbs]
            by_cases hcb : cb hd.body_start = true
            · rw [if_pos hcb]
              intro h
              apply http_body_loop_conn
              cases houtcome : (http_body_loop cb reads
                  ((if hd.body_length < size then hd.body_length else size) -
                    hd.body_start.length)
                  { err := (check_status_code e hd.status_code).1, connected := true,
                    delivered := [hd.body_start] }).2 with
              | ok =>
                rw [houtcome] at h
                simp [outcome_to_result] at h
              | failed => rfl
              | starved =>
                rw [houtcome] at h
                simp [outcome_to_result] at h
            · rw [if_neg hcb]
              intro h
              rfl
          · rw [if_neg hbs]
            intro h
            apply http_body_loop_conn
            cases houtcome : (http_body_loop cb reads
                (if hd.body_length < size then hd.body_length else size)
                { err := (check_status_code e hd.status_code).1, connected := true,
                  delivered := [] }).2 with
            | ok =>
              rw [houtcome] at h
              simp [outcome_to_result] at h
            | failed => rfl
            | starved =>
              rw [houtcome] at h
              simp [outcome_to_result] at h
      · rw [if_pos hok]
        intro h
        rfl

/-- Witness for http_status_policy: a 301 response is a redirect error, and a
header-read failure (header_result = none) leaves the connection closed on the
false return. -/
theorem http_status_policy_witness :
    (check_status_code ⟨[], false⟩ 301 =
      (fw_report_error ⟨[], false⟩
        (strBytes ("Request failed! Redirect not supported!")), false)) ∧
    ((http_fetch (fun _ => true) true ⟨none, []⟩ 10 ⟨[], false⟩ true).1.connected =
      false) :=
  ⟨http_status_policy.2.2.1 ⟨[], false⟩ 301 (by decide) (by decide),
    http_status_policy.2.2.2.2 (fun _ => true) ⟨none, []⟩ 10 ⟨[], false⟩ true
      (by decide)⟩

/-! ## Emulated streamer hardware (emulator-patches/kinetoscope.c)

The kinetoscope_emulation_context_t struct and the file-level RLE statics
together, with a ghost counter `inFlight` counting chunk fetches started by
fetch_chunk (via fetch_range_to_sram / the curl thread) and not yet completed
by fetch_chunk_done.  Timing (ms_now / ready_time / the simulated 100 ms
delay) is abstracted: command dispatch is an explicit step of the transition
relation, enabled once the token is with the streamer. -/

def CMD_ECHO : Nat := 0x00
def CMD_LIST_VIDEOS : Nat := 0x01
def CMD_START_VIDEO : Nat := 0x02
def CMD_STOP_VIDEO : Nat := 0x03
def CMD_FLIP_REGION : Nat := 0x04
def CMD_GET_ERROR : Nat := 0x05
def CMD_CONNECT_NET : Nat := 0x06
def CMD_MARCH_TEST : Nat := 0x07

def KINETOSCOPE_PORT_COMMAND : Nat := 0x10
def KINETOSCOPE_PORT_ARG : Nat := 0x12
def KINETOSCOPE_PORT_TOKEN : Nat := 0x08
def KINETOSCOPE_PORT_ERROR : Nat := 0x0A

def TOKEN_CONTROL_TO_SEGA : Nat := 0
def TOKEN_CONTROL_TO_STREAMER : Nat := 1

structure EmuState where
  sram : Sram
  command : Nat
  arg : Nat
  token : Nat
  error : Nat
  error_str : Option (List Nat)
  command_busy : Bool
  chunk_size : Nat
  chunk_num : Nat
  chunks_left : Nat
  video_url_start_byte : Nat
  compressed : Bool
  fetch_busy : Bool
  chunkIndex : Nat → Nat
  rleRepeats : Int
  rleLiterals : Int
  inFlight : Nat

/-- kinetoscope_init: the static struct is zero-initialized; init then sets
the fields it cares about.  The malloc'd SRAM contents are unspecified, so
they are a parameter. -/
def kinetoscope_init (f : Nat → Nat) : EmuState :=
  { sram := { buffer := f, offset := 0 }
    command := 0
    arg := 0
    token := TOKEN_CONTROL_TO_SEGA
    error := 0
    error_str := none
    command_busy := false
    chunk_size := 0
    chunk_num := 0
    chunks_left := 0
    video_url_start_byte := 0
    compressed := false
    fetch_busy := false
    chunkIndex := fun _ => 0
    rleRepeats := 0
    rleLiterals := 0
    inFlight := 0 }

/-- report_error (kinetoscope.c lines 204-221): vsnprintf into a 256-byte
stack buffer (so at most 255 content bytes survive), then latch: only when
the error bit is clear is the bit set and the string replaced; otherwise the
message is logged and discarded. -/
def report_error (s : EmuState) (msg : List Nat) : EmuState :=
  if s.error = 0 then
    { s with error := 1, error_str := some (msg.take 255) }
  else
    s

/-- write_error_to_sram (lines 223-226): strlen(error_str) is a null-pointer
dereference when no error was ever stored (error_str = NULL); otherwise the
message bytes (strlen of a nul-terminated C string = the stored bytes, which
contain no nul) are written to bank 0 from offset 0. -/
def write_error_to_sram (s : EmuState) : Option EmuState :=
  match s.error_str with
  | none => none
  | some msg => some { s with sram := write_sram (reset_sram s.sram 0) msg }

/-- rle_reset as called by fetch_range_to_sram. -/
def emu_rle_reset (s : EmuState) : EmuState :=
  { s with rleRepeats := 0, rleLiterals := 0 }

def underflow_message : List Nat :=
  strBytes ("Underflow detected! Internet too slow?")

def failed_fetch_message (n : Nat) : List Nat :=
  strBytes ("Failed to fetch video! (chunk " ++ toString n ++ ")")

def invalid_index_message (idx : Nat) : List Nat :=
  strBytes ("Invalid video index requested! (" ++ toString idx ++ ")")

/-- next_chunk_size (lines 315-322). -/
def next_chunk_size (s : EmuState) : Nat :=
  if s.compressed then s.chunkIndex (s.chunk_num + 1) - s.video_url_start_byte
  else s.chunk_size

/-- fetch_chunk (lines 346-363): with a fetch already in flight, latch the
underflow error and return without starting anything; otherwise flag busy and
start the asynchronous range fetch into SRAM (fetch_range_to_sram resets the
RLE decoder; the launched fetch is counted by the ghost inFlight). -/
def fetch_chunk (s : EmuState) : EmuState :=
  if s.fetch_busy then
    report_error s underflow_message
  else
    { emu_rle_reset s with fetch_busy := true, inFlight := s.inFlight + 1 }

/-- fetch_chunk_done (lines 324-344), for a flip-initiated fetch (user_ctx
NULL, so no continuation runs): on success advance the chunk bookkeeping and
point the cursor at the next bank; on failure latch a fetch error; either way
the fetch is no longer in flight. -/
def fetch_chunk_done (ok : Bool) (s : EmuState) : EmuState :=
  let s2 :=
    if ok then
      { s with chunk_num := s.chunk_num + 1
               chunks_left := s.chunks_left - 1
               video_url_start_byte := s.video_url_start_byte + next_chunk_size s
               sram := reset_sram s.sram ((s.chunk_num + 1) &&& 1) }
    else
      report_error s (failed_fetch_message s.chunk_num)
  { s2 with fetch_busy := false, inFlight := s.inFlight - 1 }

/-- flip_region (lines 513-519). -/
def flip_region (s : EmuState) : EmuState :=
  if s.chunks_left = 0 then s else fetch_chunk s

/-- complete_command (lines 365-369). -/
def complete_command (s : EmuState) : EmuState :=
  { s with command_busy := false, token := TOKEN_CONTROL_TO_SEGA }

/-- The two bytes of the uint16 echo argument as laid out in host memory
(the emulator targets little-endian hosts): low byte first. -/
def echo_bytes (arg : Nat) : List Nat := [arg % 256, arg / 256]

/-- One uppercase hex digit. -/
def hexDigit (n : Nat) : Nat := if n < 10 then 48 + n else 55 + n

def hexDigitsAux : Nat → Nat → List Nat
  | 0, _ => []
  | fuel + 1, n =>
    if n = 0 then [] else hexDigitsAux fuel (n / 16) ++ [hexDigit (n % 16)]

/-- printf %02X of a uint16 value: uppercase hex, zero-padded to width 2. -/
def hexUpper2 (n : Nat) : List Nat :=
  let ds := hexDigitsAux 8 n
  if ds.length = 0 then [48, 48]
  else if ds.length = 1 then 48 :: ds
  else ds

def unrecognized_message (cmd : Nat) : List Nat :=
  strBytes ("Unrecognized command 0x") ++ hexUpper2 cmd ++ strBytes ("!")

example : hexUpper2 0xFF = strBytes ("FF") := by decide
example : unrecognized_message 0xFF = strBytes ("Unrecognized command 0xFF!") := by
  decide

/-- The emulator's march test: SRAM_MARCH_TEST_START(bank) is reset_sram and
each SRAM_MARCH_TEST_DATA is a one-byte write_sram. -/
def emu_sram_march_test (pass : Nat) (sr : Sram) : Sram :=
  (sram_march_test_writes pass).foldl (fun acc b => write_sram acc [b])
    (reset_sram sr (pass &&& 1))

/-- Result of execute_command (lines 539-582): the handler either runs to
complete_command (token returned), or starts an asynchronous chain
(LIST_VIDEOS / START_VIDEO return early and complete later from callbacks),
or hits the undefined strlen(NULL) in write_error_to_sram. -/
inductive ECResult where
  | done : EmuState → ECResult
  | started : EmuState → ECResult
  | nullDeref : ECResult

def execute_command (s0 : EmuState) : ECResult :=
  let s := { s0 with command_busy := true }
  if s.command = CMD_ECHO then
    ECResult.done (complete_command
      { s with sram := write_sram (reset_sram s.sram 0) (echo_bytes s.arg) })
  else if s.command = CMD_LIST_VIDEOS then
    -- get_video_list_async: reset_sram(0), then fetch_to_sram of the catalog
    -- (which sets compressed := false and resets the RLE decoder before the
    -- asynchronous fetch).
    ECResult.started
      { emu_rle_reset s with sram := reset_sram s.sram 0, compressed := false }
  else if s.command = CMD_START_VIDEO then
    if s.arg > 127 then
      ECResult.done (complete_command (report_error s (invalid_index_message s.arg)))
    else
      -- fetch_range_to_buffer of the catalog entry; the chain continues in
      -- start_video_0..start_video_4.
      ECResult.started s
  else if s.command = CMD_STOP_VIDEO then
    -- stop_video() is an empty stub (TODO in the source).
    ECResult.done (complete_command s)
  else if s.command = CMD_FLIP_REGION then
    ECResult.done (complete_command (flip_region s))
  else if s.command = CMD_GET_ERROR then
    match write_error_to_sram s with
    | none => ECResult.nullDeref
    | some s2 => ECResult.done (complete_command s2)
  else if s.command = CMD_CONNECT_NET then
    ECResult.done (complete_command s)
  else if s.command = CMD_MARCH_TEST then
    ECResult.done (complete_command { s with sram := emu_sram_march_test s.arg s.sram })
  else
    ECResult.done (complete_command (report_error s (unrecognized_message s.command)))

/-- kinetoscope_write_16 (lines 584-604): the console's port writes.  Writing
any value to the token port hands the token to the streamer; writing any
value to the error port clears the error bit (and nothing else). -/
def kinetoscope_write_16 (s : EmuState) (address value : Nat) : EmuState :=
  if address = KINETOSCOPE_PORT_COMMAND then { s with command := value % 65536 }
  else if address = KINETOSCOPE_PORT_ARG then { s with arg := value % 65536 }
  else if address = KINETOSCOPE_PORT_TOKEN then
    { s with token := TOKEN_CONTROL_TO_STREAMER }
  else if address = KINETOSCOPE_PORT_ERROR then { s with error := 0 }
  else s

/-- Reachable emulator states.  Port writes, the start_video /
get_video_list continuation chains (catalog and header fetches, session-field
updates, error reports, complete_command) never touch fetch_busy or start a
chunk fetch, so they are covered by the general environment step; chunk
fetches start only inside fetch_chunk, and a completion event can only occur
for a fetch actually in flight. -/
inductive Reachable : EmuState → Prop where
  | init (f : Nat → Nat) : Reachable (kinetoscope_init f)
  | envStep (s s2 : EmuState) : Reachable s → s2.fetch_busy = s.fetch_busy →
      s2.inFlight = s.inFlight → Reachable s2
  | execDone (s s2 : EmuState) : Reachable s →
      execute_command s = ECResult.done s2 → Reachable s2
  | execStarted (s s2 : EmuState) : Reachable s →
      execute_command s = ECResult.started s2 → Reachable s2
  | chunk (s : EmuState) : Reachable s → Reachable (fetch_chunk s)
  | chunkDone (s : EmuState) (ok : Bool) : Reachable s → 0 < s.inFlight →
      Reachable (fetch_chunk_done ok s)

/-- The single-flight invariant: the ghost count of chunk fetches in flight
is exactly the fetch_busy indicator. -/
def FetchInv (s : EmuState) : Prop :=
  s.inFlight = if s.fetch_busy then 1 else 0

lemma report_error_fetch_busy (s : EmuState) (msg : List Nat) :
    (report_error s msg).fetch_busy = s.fetch_busy := by
  unfold report_error
  split <;> rfl

lemma report_error_inFlight (s : EmuState) (msg : List Nat) :
    (report_error s msg).inFlight = s.inFlight := by
  unfold report_error
  split <;> rfl

lemma fetch_chunk_inv (s : EmuState) (h : FetchInv s) : FetchInv (fetch_chunk s) := by
  unfold FetchInv at h ⊢
  unfold fetch_chunk
  by_cases hb : s.fetch_busy = true
  · rw [if_pos hb]
    rw [report_error_fetch_busy, report_error_inFlight]
    exact h
  · simp only [Bool.not_eq_true] at hb
    rw [if_neg (by rw [hb]; simp)]
    show s.inFlight + 1 = if true then 1 else 0
    rw [hb] at h
    simp at h ⊢
    exact h

lemma fetch_chunk_done_inv (s : EmuState) (ok : Bool) (hi : FetchInv s)
    (hpos : 0 < s.inFlight) : FetchInv (fetch_chunk_done ok s) := by
  unfold FetchInv at hi
  have hb : s.fetch_busy = true := by
    by_contra hb
    simp only [Bool.not_eq_true] at hb
    rw [hb] at hi
    simp at hi
    omega
  rw [hb] at hi
  simp at hi
  show s.inFlight - 1 = if false then 1 else 0
  simp [hi]

lemma execute_done_inv (s s2 : EmuState)
    (h : execute_command s = ECResult.done s2) (hi : FetchInv s) : FetchInv s2 := by
  unfold execute_command at h
  by_cases h0 : ({ s with command_busy := true } : EmuState).command = CMD_ECHO
  · rw [if_pos h0] at h
    injection h with h2
    subst h2
    exact hi
  · rw [if_neg h0] at h
    by_cases h1 : ({ s with command_busy := true } : EmuState).command = CMD_LIST_VIDEOS
    · rw [if_pos h1] at h
      exact ECResult.noConfusion h
    · rw [if_neg h1] at h
      by_cases h2 : ({ s with command_busy := true } : EmuState).command = CMD_START_VIDEO
      · rw [if_pos h2] at h
        by_cases h3 : ({ s with command_busy := true } : EmuState).arg > 127
        · rw [if_pos h3] at h
          injection h with h4
          subst h4
          show (report_error { s with command_busy := true }
            (invalid_index_message s.arg)).inFlight =
            if (report_error { s with command_busy := true }
              (invalid_index_message s.arg)).fetch_busy then 1 else 0
          rw [report_error_fetch_busy, report_error_inFlight]
          exact hi
        · rw [if_neg h3] at h
          exact ECResult.noConfusion h
      · rw [if_neg h2] at h
        by_cases h3 : ({ s with command_busy := true } : EmuState).command = CMD_STOP_VIDEO
        · rw [if_pos h3] at h
          injection h with h4
          subst h4
          exact hi
        · rw [if_neg h3] at h
          by_cases h4 : ({ s with command_busy := true } : EmuState).command = CMD_FLIP_REGION
          · rw [if_pos h4] at h
            injection h with h5
            subst h5
            show FetchInv (flip_region { s with command_busy := true })
            unfold flip_region
            by_cases hc : ({ s with command_busy := true } : EmuState).chunks_left = 0
            · rw [if_pos hc]
              exact hi
            · rw [if_neg hc]
              exact fetch_chunk_inv _ hi
          · rw [if_neg h4] at h
            by_cases h5 : ({ s with command_busy := true } : EmuState).command = CMD_GET_ERROR
            · rw [if_pos h5] at h
              unfold write_error_to_sram at h
              cases he : ({ s with command_busy := true } : EmuState).error_str with
              | none =>
                rw [he] at h
                exact ECResult.noConfusion h
              | some msg =>
                rw [he] at h
                injection h with h6
                subst h6
                exact hi
            · rw [if_neg h5] at h
              by_cases h6 : ({ s with command_busy := true } : EmuState).command = CMD_CONNECT_NET
              · rw [if_pos h6] at h
                injection h with h7
                subst h7
                exact hi
              · rw [if_neg h6] at h
                by_cases h7 : ({ s with command_busy := true } : EmuState).command = CMD_MARCH_TEST
                · rw [if_pos h7] at h
                  injection h with h8
                  subst h8
                  exact hi
                · rw [if_neg h7] at h
                  injection h with h8
                  subst h8
                  show (report_error { s with command_busy := true }
                    (unrecognized_message s.command)).inFlight =
                    if (report_error { s with command_busy := true }
                      (unrecognized_message s.command)).fetch_busy then 1 else 0
                  rw [report_error_fetch_busy, report_error_inFlight]
                  exact hi

lemma execute_started_fields (s s2 : EmuState)
    (h : execute_command s = ECResult.started s2) :
    s2.fetch_busy = s.fetch_busy ∧ s2.inFlight = s.inFlight := by
  unfold execute_command at h
  by_cases h0 : ({ s with command_busy := true } : EmuState).command = CMD_ECHO
  · rw [if_pos h0] at h
    exact ECResult.noConfusion h
  · rw [if_neg h0] at h
    by_cases h1 : ({ s with command_busy := true } : EmuState).command = CMD_LIST_VIDEOS
    · rw [if_pos h1] at h
      injection h with h2
      subst h2
      exact ⟨rfl, rfl⟩
    · rw [if_neg h1] at h
      by_cases h2 : ({ s with command_busy := true } : EmuState).command = CMD_START_VIDEO
      · rw [if_pos h2] at h
        by_cases h3 : ({ s with command_busy := true } : EmuState).arg > 127
        · rw [if_pos h3] at h
          exact ECResult.noConfusion h
        · rw [if_neg h3] at h
          injection h with h4
          subst h4
          exact ⟨rfl, rfl⟩
      · rw [if_neg h2] at h
        by_cases h3 : ({ s with command_busy := true } : EmuState).command = CMD_STOP_VIDEO
        · rw [if_pos h3] at h
          exact ECResult.noConfusion h
        · rw [if_neg h3] at h
          by_cases h4 : ({ s with command_busy := true } : EmuState).command = CMD_FLIP_REGION
          · rw [if_pos h4] at h
            exact ECResult.noConfusion h
          · rw [if_neg h4] at h
            by_cases h5 : ({ s with command_busy := true } : EmuState).command = CMD_GET_ERROR
            · rw [if_pos h5] at h
              unfold write_error_to_sram at h
              cases he : ({ s with command_busy := true } : EmuState).error_str with
              | none =>
                rw [he] at h
                exact ECResult.noConfusion h
              | some msg =>
                rw [he] at h
                exact ECResult.noConfusion h
            · rw [if_neg h5] at h
              by_cases h6 : ({ s with command_busy := true } : EmuState).command = CMD_CONNECT_NET
              · rw [if_pos h6] at h
                exact ECResult.noConfusion h
              · rw [if_neg h6] at h
                by_cases h7 : ({ s with command_busy := true } : EmuState).command = CMD_MARCH_TEST
                · rw [if_pos h7] at h
                  exact ECResult.noConfusion h
                · rw [if_neg h7] at h
                  exact ECResult.noConfusion h

lemma reachable_fetchInv (s : EmuState) (h : Reachable s) : FetchInv s := by
  induction h with
  | init f => rfl
  | envStep s s2 hr hb hi ih =>
    unfold FetchInv at ih ⊢
    rw [hb, hi]
    exact ih
  | execDone s s2 hr he ih => exact execute_done_inv s s2 he ih
  | execStarted s s2 hr he ih =>
    obtain ⟨hb, hi⟩ := execute_started_fields s s2 he
    unfold FetchInv at ih ⊢
    rw [hb, hi]
    exact ih
  | chunk s hr ih => exact fetch_chunk_inv s ih
  | chunkDone s ok hr hpos ih => exact fetch_chunk_done_inv s ok ih hpos

/-- C3: in every reachable state at most one chunk fetch is in flight, and
when fetch_chunk is invoked (e.g. by FLIP_REGION) while fetch_busy is already
set, it does exactly report_error of the underflow message and returns: the
error bit ends set, the underflow string is stored (when no earlier error was
latched), no new fetch is started, and the fetch already in flight is
unaffected. -/
theorem fetch_single_flight :
    (∀ s, Reachable s → s.inFlight ≤ 1) ∧
    (∀ s, s.fetch_busy = true →
      fetch_chunk s = report_error s underflow_message ∧
      (fetch_chunk s).fetch_busy = s.fetch_busy ∧
      (fetch_chunk s).inFlight = s.inFlight ∧
      (fetch_chunk s).error ≠ 0 ∧
      (s.error = 0 → (fetch_chunk s).error_str = some underflow_message)) := by
  constructor
  · intro s h
    have hinv := reachable_fetchInv s h
    unfold FetchInv at hinv
    rw [hinv]
    split <;> omega
  · intro s hb
    have heq : fetch_chunk s = report_error s underflow_message := by
      unfold fetch_chunk
      rw [if_pos hb]
    refine ⟨heq, ?_, ?_, ?_, ?_⟩
    · rw [heq, report_error_fetch_busy]
    · rw [heq, report_error_inFlight]
    · rw [heq]
      unfold report_error
      by_cases he : s.error = 0
      · rw [if_pos he]
        simp
      · rw [if_neg he]
        exact he
    · intro he
      rw [heq]
      unfold report_error
      rw [if_pos he]
      show some (underflow_message.take 255) = some underflow_message
      decide

/-- Witness for fetch_single_flight: the initial state is reachable, and a
busy state latches the underflow error. -/
theorem fetch_single_flight_witness :
    (kinetoscope_init (fun _ => 0)).inFlight ≤ 1 ∧
    (fetch_chunk { kinetoscope_init (fun _ => 0) with fetch_busy := true }).error ≠ 0 :=
  ⟨fetch_single_flight.1 _ (Reachable.init (fun _ => 0)),
    (fetch_single_flight.2 { kinetoscope_init (fun _ => 0) with
      fetch_busy := true } rfl).2.2.2.1⟩

/-- C4: report_error latches — with the error bit clear it sets the bit and
replaces error_str by the formatted message truncated to 255 content bytes
(256 including the terminator); with the bit already set the state is
unchanged.  A console write of any value to the error port clears the error
bit and leaves error_str alone. -/
theorem error_latch_semantics :
    (∀ s msg, s.error = 0 →
      report_error s msg = { s with error := 1, error_str := some (msg.take 255) }) ∧
    (∀ s msg, s.error ≠ 0 → report_error s msg = s) ∧
    (∀ s v, (kinetoscope_write_16 s KINETOSCOPE_PORT_ERROR v).error = 0 ∧
      (kinetoscope_write_16 s KINETOSCOPE_PORT_ERROR v).error_str = s.error_str) := by
  refine ⟨?_, ?_, ?_⟩
  · intro s msg h
    unfold report_error
    rw [if_pos h]
  · intro s msg h
    unfold report_error
    rw [if_neg h]
  · intro s v
    unfold kinetoscope_write_16
    simp [KINETOSCOPE_PORT_ERROR, KINETOSCOPE_PORT_COMMAND, KINETOSCOPE_PORT_ARG,
      KINETOSCOPE_PORT_TOKEN]

/-- Witness for error_latch_semantics at the freshly initialized state. -/
theorem error_latch_semantics_witness :
    (report_error (kinetoscope_init (fun _ => 0)) [65] =
      { kinetoscope_init (fun _ => 0) with
          error := 1,
          error_str := some ([65].take 255) }) ∧
    ((kinetoscope_write_16 (kinetoscope_init (fun _ => 0))
        KINETOSCOPE_PORT_ERROR 7).error = 0) :=
  ⟨error_latch_semantics.1 (kinetoscope_init (fun _ => 0)) [65] rfl,
    (error_latch_semantics.2.2 (kinetoscope_init (fun _ => 0)) 7).1⟩

/-! ### C8 / C10: GET_ERROR scenarios -/

def ec_done_state : ECResult → Option EmuState
  | ECResult.done s => some s
  | _ => none

/-- The byte the console sees at logical offset i of the data window: the
16-bit bus byte-swap means logical byte i lives at physical offset i XOR 1,
which is exactly where write_sram put it. -/
def console_byte (s : EmuState) (i : Nat) : Nat := s.sram.buffer (i ^^^ 1)

/-- The unrecognized-command scenario, from a fresh init whose malloc'd SRAM
happens to hold 0x01 everywhere: the console writes command 0xFF, hands over
the token, and the command executes. -/
def c8_after_unrecognized : Option EmuState :=
  ec_done_state (execute_command
    (kinetoscope_write_16
      (kinetoscope_write_16 (kinetoscope_init (fun _ => 1))
        KINETOSCOPE_PORT_COMMAND 0xFF)
      KINETOSCOPE_PORT_TOKEN 1))

/-- ... the console then issues GET_ERROR the same way. -/
def c8_after_get_error : Option EmuState :=
  c8_after_unrecognized.bind (fun s3 =>
    ec_done_state (execute_command
      (kinetoscope_write_16
        (kinetoscope_write_16 s3 KINETOSCOPE_PORT_COMMAND CMD_GET_ERROR)
        KINETOSCOPE_PORT_TOKEN 1)))

/-- C8 (evidence for the code_bug): after command 0xFF the handler completes,
the token returns to the console and the error bit is set; after GET_ERROR
bank 0 begins, in console-visible byte order, with the 26 ASCII bytes of
"Unrecognized command 0xFF!" — but the byte after them is NOT a nul
terminator: write_error_to_sram writes only strlen(error_str) bytes, so
console byte 26 still holds the pre-existing SRAM content (0x01 here),
whereas the claim requires a terminating 0. -/
theorem unrecognized_command_scenario :
    (c8_after_unrecognized.map (fun s => (s.token, s.error)) =
      some (TOKEN_CONTROL_TO_SEGA, 1)) ∧
    (c8_after_get_error.map
        (fun s => ((List.range 27).map (console_byte s), s.error, s.token)) =
      some (strBytes ("Unrecognized command 0xFF!") ++ [1], 1,
        TOKEN_CONTROL_TO_SEGA)) := by
  constructor
  · decide
  · decide

/-- C10: GET_ERROR before any error was ever latched hits strlen(NULL) —
kinetoscope_init sets error_str to NULL and execute_command reaches
write_error_to_sram's null branch — while with some error previously latched
it writes exactly the strlen(error_str) bytes of the message to bank 0
starting at offset 0. -/
theorem get_error_null_deref :
    (∀ f, execute_command
      (kinetoscope_write_16
        (kinetoscope_write_16 (kinetoscope_init f)
          KINETOSCOPE_PORT_COMMAND CMD_GET_ERROR)
        KINETOSCOPE_PORT_TOKEN 1) = ECResult.nullDeref) ∧
    (∀ s msg, s.error_str = some msg → s.command = CMD_GET_ERROR →
      execute_command s = ECResult.done (complete_command
        { s with
            command_busy := true,
            sram := write_sram (reset_sram s.sram 0) msg })) ∧
    (∀ s msg, s.error_str = some msg → msg.length ≤ SRAM_SIZE →
      write_error_to_sram s =
        some { s with sram := write_sram (reset_sram s.sram 0) msg } ∧
      (∀ i, (hi : i < msg.length) →
        (write_sram (reset_sram s.sram 0) msg).buffer (i ^^^ 1) = msg[i])) := by
  refine ⟨?_, ?_, ?_⟩
  · intro f
    rfl
  · intro s msg h1 h2
    unfold execute_command
    have hc : ({ s with command_busy := true } : EmuState).command = CMD_GET_ERROR := h2
    rw [if_neg (by rw [hc]; decide), if_neg (by rw [hc]; decide),
      if_neg (by rw [hc]; decide), if_neg (by rw [hc]; decide),
      if_neg (by rw [hc]; decide), if_pos hc]
    unfold write_error_to_sram
    have he : ({ s with command_busy := true } : EmuState).error_str = some msg := h1
    rw [he]
  · intro s msg h1 hlen
    constructor
    · unfold write_error_to_sram
      rw [h1]
    · intro i hi
      have hoff : (reset_sram s.sram 0).offset = 0 := by
        simp [reset_sram, SRAM_BANK_0_OFFSET]
      obtain ⟨-, hg, -⟩ := write_sram_fits (reset_sram s.sram 0) msg
        (by rw [hoff]; omega)
      have := hg i hi
      rw [hoff, Nat.zero_add] at this
      exact this

/-- Witness for get_error_null_deref: a one-byte latched message. -/
theorem get_error_null_deref_witness :
    (execute_command
      (kinetoscope_write_16
        (kinetoscope_write_16 (kinetoscope_init (fun _ => 0))
          KINETOSCOPE_PORT_COMMAND CMD_GET_ERROR)
        KINETOSCOPE_PORT_TOKEN 1) = ECResult.nullDeref) ∧
    (write_error_to_sram
        { kinetoscope_init (fun _ => 0) with error_str := some [65] } =
      some { { kinetoscope_init (fun _ => 0) with error_str := some [65] } with
          sram := write_sram
            (reset_sram ({ kinetoscope_init (fun _ => 0) with
              error_str := some [65] } : EmuState).sram 0) [65] }) :=
  ⟨get_error_null_deref.1 (fun _ => 0),
    (get_error_null_deref.2.2
      { kinetoscope_init (fun _ => 0) with error_str := some [65] } [65]
      rfl (by decide)).1⟩

end Kinetoscope
